import Mathlib

/-!
Verification of the uniqid package: a 64-bit unique-identifier generator
(16-bit server identifier in the top bits, 48-bit sequence counter in the
low bits) together with its hexadecimal codec.

The Go source is shallowly embedded: machine integers become `Nat` with
explicit `% 2 ^ 64` where overflow matters, the process-wide mutable
variables (`serverID`, `uniqueAdID`, the `sync.Once` guard) become an
explicit `State` record threaded through the operations, and a fatal
`log.Panicf` becomes the `none` case of an `Option` result.  The external
IP collaborator (`ExternalIP().To4()`) is a parameter: `none` models a
`nil` 4-byte form, `some (a, b, c, d)` the four bytes of the resolved
IPv4 address.
-/

namespace Uniqid

/-- Mask for the low 48 bits, as in `Get`: `(uint64(1) << 48) - 1`. -/
def mask48 : Nat := (1 <<< 48) - 1

/-- Process-wide mutable state of the generator: the `serverID` variable
(a `uint16`), the `uniqueAdID` counter (a `uint64`), and the `sync.Once`
guard used by `Get` to run `initServerID` at most once. -/
structure State where
  serverID : Nat
  uniqueAdID : Nat
  onceDone : Bool
deriving DecidableEq, Repr

/-- Embedding of `SetServerID`: panics (`none`) when `serverID > 0`,
otherwise stores the given id. -/
def SetServerID (st : State) (id : Nat) : Option State :=
  if st.serverID > 0 then none
  else some { st with serverID := id }

/-- Embedding of `initServerID`: a no-op when `serverID > 0`; otherwise it
panics (`none`) when `ExternalIP().To4()` is `nil`, and otherwise stores
`uint16(ip4[2])<<8 | uint16(ip4[3])`.  The resolved address is the
`ip4` parameter. -/
def initServerID (ip4 : Option (Nat × Nat × Nat × Nat)) (st : State) : Option State :=
  if st.serverID > 0 then some st
  else
    match ip4 with
    | none => none
    | some (_, _, b2, b3) => some { st with serverID := (b2 <<< 8) ||| b3 }

/-- Embedding of `Get`: runs `initServerID` through the `once` guard, then
atomically increments the `uint64` counter and returns
`(uint64(serverID) << 48) | (adID & mask48)` with the new state. -/
def Get (ip4 : Option (Nat × Nat × Nat × Nat)) (st : State) : Option (Nat × State) :=
  match (if st.onceDone then some st else initServerID ip4 st) with
  | none => none
  | some st1 =>
    let adID := (st1.uniqueAdID + 1) % 2 ^ 64
    let st2 : State := { st1 with uniqueAdID := adID, onceDone := true }
    some ((st2.serverID <<< 48) ||| (adID &&& mask48), st2)

/-- Embedding of `hexByte`: one hex nibble to its ASCII code, uppercase
(`'0' = 48`, `'A' = 65`). -/
def hexByte (c : Nat) : Nat :=
  if c < 10 then 48 + c else c - 10 + 65

/-- The encoding loop of `Append`, applied to a given 64-bit value `n`:
for `i = 1..8`, take `c = byte(n >> (64 - 8*i))` and append the ASCII hex
digits of its two nibbles. -/
def appendHexOf (n : Nat) (dst : List Nat) : List Nat :=
  (List.range 8).foldl
    (fun d i =>
      let shift := 64 - ((i + 1) <<< 3)
      let c := (n >>> shift) % 256
      d ++ [hexByte (c >>> 4), hexByte (c &&& 0xf)])
    dst

/-- Embedding of `Append`: generates a fresh identifier with `Get` and
appends its 16 hex characters to `dst`. -/
def Append (ip4 : Option (Nat × Nat × Nat × Nat)) (st : State) (dst : List Nat) :
    Option (List Nat × State) :=
  match Get ip4 st with
  | none => none
  | some (n, st1) => some (appendHexOf n dst, st1)

/-- Embedding of `fromHex`: ASCII code of a hex digit to its value, or
`0xff` for a non-hex byte (`'0' = 48`, `'9' = 57`, `'a' = 97`, `'f' = 102`,
`'A' = 65`, `'F' = 70`). -/
def fromHex (b : Nat) : Nat :=
  if 48 ≤ b ∧ b ≤ 57 then b - 48
  else if 97 ≤ b ∧ b ≤ 102 then b - 97 + 10
  else if 65 ≤ b ∧ b ≤ 70 then b - 65 + 10
  else 0xff

/-- Embedding of `GetServerID`: returns 0 when the input is shorter than
16 bytes or one of the first four bytes is not a hex digit, and otherwise
reconstructs `uint16(b0)<<8 | uint16(b1)` from the first four digits. -/
def GetServerID (hex : List Nat) : Nat :=
  if hex.length < 16 then 0
  else
    let b0h := fromHex (hex.getD 0 0)
    let b0l := fromHex (hex.getD 1 0)
    let b1h := fromHex (hex.getD 2 0)
    let b1l := fromHex (hex.getD 3 0)
    if b0h = 0xff ∨ b0l = 0xff ∨ b1h = 0xff ∨ b1l = 0xff then 0
    else
      let b0 := (b0h <<< 4) ||| b0l
      let b1 := (b1h <<< 4) ||| b1l
      (b0 <<< 8) ||| b1

/-- A byte is an ASCII hex digit, i.e. in `[0-9a-fA-F]`. -/
def isHexDigit (b : Nat) : Prop :=
  (48 ≤ b ∧ b ≤ 57) ∨ (97 ≤ b ∧ b ≤ 102) ∨ (65 ≤ b ∧ b ≤ 70)

instance (b : Nat) : Decidable (isHexDigit b) := by
  unfold isHexDigit; infer_instance

/- Helper lemmas -/

theorem shiftLeft_or_eq_add (a b k : Nat) (hb : b < 2 ^ k) :
    (a <<< k) ||| b = a * 2 ^ k + b := by
  rw [Nat.shiftLeft_eq, Nat.mul_comm a (2 ^ k), Nat.mul_add_lt_is_or hb]

theorem mask48_eq : mask48 = 2 ^ 48 - 1 := by
  decide

theorem and_mask48_eq_mod (x : Nat) : x &&& mask48 = x % 2 ^ 48 := by
  rw [mask48_eq]
  exact Nat.and_pow_two_sub_one_eq_mod x 48

theorem initServerID_preserves_counter (ip4 : Option (Nat × Nat × Nat × Nat))
    (st st1 : State) (h : initServerID ip4 st = some st1) :
    st1.uniqueAdID = st.uniqueAdID ∧ st1.onceDone = st.onceDone := by
  unfold initServerID at h
  split at h
  · cases h; exact ⟨rfl, rfl⟩
  · match ip4, h with
    | some (a, b, c, d), h => cases h; exact ⟨rfl, rfl⟩

theorem get_eq (ip4 : Option (Nat × Nat × Nat × Nat)) (st st' : State) (v : Nat)
    (h : Get ip4 st = some (v, st')) :
    v = (st'.serverID <<< 48) ||| (st'.uniqueAdID &&& mask48) ∧
      st'.uniqueAdID = (st.uniqueAdID + 1) % 2 ^ 64 ∧ st'.onceDone = true := by
  unfold Get at h
  cases hc : (if st.onceDone then some st else initServerID ip4 st) with
  | none => rw [hc] at h; cases h
  | some st1 =>
    have hcounter : st1.uniqueAdID = st.uniqueAdID := by
      split at hc
      · cases hc; rfl
      · exact (initServerID_preserves_counter ip4 st st1 hc).1
    rw [hc] at h
    simp only [Option.some.injEq, Prod.mk.injEq] at h
    obtain ⟨hv, hst⟩ := h
    subst hst
    exact ⟨hv.symm, by simp [hcounter], rfl⟩

/-- C1: with the server identifier configured, `Get` returns
`(serverID << 48) | (counter & mask48)` where `counter` is the
post-increment value of the process-wide counter, and the top 16 bits of
the returned value equal the server identifier exactly. -/
theorem get_layout (ip4 : Option (Nat × Nat × Nat × Nat)) (st st' : State) (v : Nat)
    (h : Get ip4 st = some (v, st')) (_hsid : st'.serverID < 2 ^ 16) :
    v = (st'.serverID <<< 48) ||| (st'.uniqueAdID &&& mask48) ∧
      st'.uniqueAdID = (st.uniqueAdID + 1) % 2 ^ 64 ∧
      v >>> 48 = st'.serverID := by
  obtain ⟨hv, hctr, -⟩ := get_eq ip4 st st' v h
  refine ⟨hv, hctr, ?_⟩
  have hlt : st'.uniqueAdID &&& mask48 < 2 ^ 48 := by
    rw [and_mask48_eq_mod]
    exact Nat.mod_lt _ (by norm_num)
  rw [hv, shiftLeft_or_eq_add _ _ _ hlt, Nat.shiftRight_eq_div_pow]
  omega

theorem get_layout_witness :
    ∃ v st', Get none ⟨77, 5, true⟩ = some (v, st') ∧
      v = (st'.serverID <<< 48) ||| (st'.uniqueAdID &&& mask48) ∧
      st'.uniqueAdID = (5 + 1) % 2 ^ 64 ∧
      v >>> 48 = st'.serverID := by
  refine ⟨(77 <<< 48) ||| (6 &&& mask48), ⟨77, 6, true⟩, by decide, ?_⟩
  exact get_layout none ⟨77, 5, true⟩ ⟨77, 6, true⟩ _ (by decide) (by decide)

/-- C6: when the server identifier is already assigned (a positive stored
value, since 0 is the unset sentinel), `SetServerID` fails fatally and
does not return normally. -/
theorem setServerID_already_set (st : State) (id : Nat) (h : st.serverID > 0) :
    SetServerID st id = none := by
  unfold SetServerID
  simp [h]

theorem setServerID_already_set_witness :
    SetServerID ⟨77, 0, true⟩ 5 = none :=
  setServerID_already_set ⟨77, 0, true⟩ 5 (by decide)

/-- C9: calling `SetServerID` with the value 0 on the unset state returns
normally and leaves the identifier unset, so a subsequent `SetServerID`
with any value also returns normally, and a subsequent first `Get` still
performs lazy derivation from the external IP. -/
theorem setServerID_zero_is_noop (st : State) (h0 : st.serverID = 0)
    (hnotdone : st.onceDone = false) :
    SetServerID st 0 = some { st with serverID := 0 } ∧
      (∀ v : Nat, SetServerID { st with serverID := 0 } v =
        some { st with serverID := v }) ∧
      (∀ a b c d : Nat, ∃ w st₂,
        Get (some (a, b, c, d)) { st with serverID := 0 } = some (w, st₂) ∧
          st₂.serverID = (c <<< 8) ||| d) := by
  refine ⟨by simp [SetServerID, h0], fun v => by simp [SetServerID], fun a b c d => ?_⟩
  refine ⟨((c <<< 8 ||| d) <<< 48) ||| (((st.uniqueAdID + 1) % 2 ^ 64) &&& mask48),
    ⟨c <<< 8 ||| d, (st.uniqueAdID + 1) % 2 ^ 64, true⟩, ?_, rfl⟩
  simp [Get, initServerID, h0, hnotdone]

theorem setServerID_zero_is_noop_witness :
    SetServerID ⟨0, 5, false⟩ 0 = some ⟨0, 5, false⟩ ∧
      SetServerID ⟨0, 5, false⟩ 77 = some ⟨77, 5, false⟩ ∧
      ∃ w st₂, Get (some (10, 0, 1, 2)) ⟨0, 5, false⟩ = some (w, st₂) ∧
        st₂.serverID = (1 <<< 8) ||| 2 := by
  obtain ⟨h1, h2, h3⟩ := setServerID_zero_is_noop ⟨0, 5, false⟩ rfl rfl
  exact ⟨h1, h2 77, h3 10 0 1 2⟩

theorem get_low48 (ip4 : Option (Nat × Nat × Nat × Nat)) (st st' : State) (v : Nat)
    (h : Get ip4 st = some (v, st')) : v &&& mask48 = st'.uniqueAdID % 2 ^ 48 := by
  obtain ⟨hv, -, -⟩ := get_eq ip4 st st' v h
  have hm : st'.uniqueAdID &&& mask48 = st'.uniqueAdID % 2 ^ 48 :=
    and_mask48_eq_mod _
  have hlt : st'.uniqueAdID &&& mask48 < 2 ^ 48 := by
    rw [hm]; exact Nat.mod_lt _ (by norm_num)
  rw [hv, and_mask48_eq_mod, shiftLeft_or_eq_add _ _ _ hlt, hm]
  omega

/-- C5: the sequence field advances by exactly 1 per generated identifier:
for two consecutive calls to `Get`, the low 48 bits of the second returned
identifier equal the low 48 bits of the first plus 1, modulo `2 ^ 48`. -/
theorem get_consecutive_low48 (ip ip' : Option (Nat × Nat × Nat × Nat))
    (st st1 st2 : State) (v1 v2 : Nat)
    (h1 : Get ip st = some (v1, st1)) (h2 : Get ip' st1 = some (v2, st2)) :
    v2 &&& mask48 = ((v1 &&& mask48) + 1) % 2 ^ 48 := by
  rw [get_low48 ip st st1 v1 h1, get_low48 ip' st1 st2 v2 h2,
    (get_eq ip' st1 st2 v2 h2).2.1]
  omega

theorem get_consecutive_low48_witness :
    ((77 <<< 48 ||| (7 &&& mask48)) &&& mask48) =
      (((77 <<< 48 ||| (6 &&& mask48)) &&& mask48) + 1) % 2 ^ 48 :=
  get_consecutive_low48 none none ⟨77, 5, true⟩ ⟨77, 6, true⟩ ⟨77, 7, true⟩
    (77 <<< 48 ||| (6 &&& mask48)) (77 <<< 48 ||| (7 &&& mask48))
    (by decide) (by decide)

theorem get_preserves_serverID_once (ip : Option (Nat × Nat × Nat × Nat))
    (st st' : State) (v : Nat) (hd : st.onceDone = true)
    (h : Get ip st = some (v, st')) : st'.serverID = st.serverID := by
  unfold Get at h
  rw [hd] at h
  simp only [if_true, Option.some.injEq, Prod.mk.injEq] at h
  rw [← h.2]

/-- C7: when no server identifier was explicitly set, the first `Get`
derives it from the external-IP collaborator as
`(third_byte << 8) | fourth_byte`, does so exactly once (a later call
never re-derives it), and a failure to resolve the address is fatal. -/
theorem get_lazy_derivation (st : State) (h0 : st.serverID = 0)
    (hnd : st.onceDone = false) :
    (∀ a b c d : Nat, ∃ v st1,
      Get (some (a, b, c, d)) st = some (v, st1) ∧
        st1.serverID = (c <<< 8) ||| d ∧
        ∀ ip' v2 st2, Get ip' st1 = some (v2, st2) →
          st2.serverID = st1.serverID) ∧
    Get none st = none := by
  constructor
  · intro a b c d
    refine ⟨((c <<< 8 ||| d) <<< 48) ||| (((st.uniqueAdID + 1) % 2 ^ 64) &&& mask48),
      ⟨c <<< 8 ||| d, (st.uniqueAdID + 1) % 2 ^ 64, true⟩, ?_, rfl, ?_⟩
    · simp [Get, initServerID, h0, hnd]
    · intro ip' v2 st2 h2
      exact get_preserves_serverID_once ip' _ st2 v2 rfl h2
  · simp [Get, initServerID, h0, hnd]

theorem get_lazy_derivation_witness :
    (∃ v st1, Get (some (10, 0, 1, 2)) ⟨0, 5, false⟩ = some (v, st1) ∧
      st1.serverID = (1 <<< 8) ||| 2 ∧
      ∀ ip' v2 st2, Get ip' st1 = some (v2, st2) →
        st2.serverID = st1.serverID) ∧
    Get none ⟨0, 5, false⟩ = none := by
  obtain ⟨h1, h2⟩ := get_lazy_derivation ⟨0, 5, false⟩ rfl rfl
  exact ⟨h1 10 0 1 2, h2⟩

theorem and_fifteen (x : Nat) : x &&& 0xf = x % 16 := by
  have h := Nat.and_pow_two_sub_one_eq_mod x 4
  norm_num at h
  exact h

theorem hexByte_range (x : Nat) (hx : x < 16) :
    (48 ≤ hexByte x ∧ hexByte x ≤ 57) ∨ (65 ≤ hexByte x ∧ hexByte x ≤ 70) := by
  unfold hexByte
  split <;> omega

theorem range_eight : List.range 8 = [0, 1, 2, 3, 4, 5, 6, 7] := by
  decide

theorem appendHexOf_unfold (n : Nat) (dst : List Nat) :
    appendHexOf n dst = dst ++
      [hexByte (((n >>> 56) % 256) >>> 4), hexByte (((n >>> 56) % 256) &&& 0xf),
       hexByte (((n >>> 48) % 256) >>> 4), hexByte (((n >>> 48) % 256) &&& 0xf),
       hexByte (((n >>> 40) % 256) >>> 4), hexByte (((n >>> 40) % 256) &&& 0xf),
       hexByte (((n >>> 32) % 256) >>> 4), hexByte (((n >>> 32) % 256) &&& 0xf),
       hexByte (((n >>> 24) % 256) >>> 4), hexByte (((n >>> 24) % 256) &&& 0xf),
       hexByte (((n >>> 16) % 256) >>> 4), hexByte (((n >>> 16) % 256) &&& 0xf),
       hexByte (((n >>> 8) % 256) >>> 4), hexByte (((n >>> 8) % 256) &&& 0xf),
       hexByte (((n >>> 0) % 256) >>> 4), hexByte (((n >>> 0) % 256) &&& 0xf)] := by
  simp only [appendHexOf, range_eight, List.foldl]
  norm_num
  simp [List.append_assoc]

theorem appendHexOf_nibbles (n : Nat) (hn : n < 2 ^ 64) :
    appendHexOf n [] =
      (List.range 16).map (fun i => hexByte ((n >>> (60 - 4 * i)) % 16)) := by
  rw [appendHexOf_unfold]
  have h16 : List.range 16 = [0, 1, 2, 3, 4, 5, 6, 7, 8, 9, 10, 11, 12, 13, 14, 15] := by
    decide
  simp only [h16, List.map, List.nil_append, List.cons.injEq, and_true]
  simp only [Nat.shiftRight_eq_div_pow, and_fifteen]
  norm_num
  repeat' apply And.intro
  all_goals (apply congrArg; omega)

/-- C3: the encode loop of `Append` appends exactly 16 ASCII hex
characters (digits `0`-`9` or uppercase `A`-`F`), the 8 bytes of the
identifier most-significant byte first with two digits per byte, never
fails, and leaves the pre-existing contents of the destination unchanged;
encoding 0 appends sixteen `0` characters and encoding
`0xFFFFFFFFFFFFFFFF` appends sixteen `F` characters. -/
theorem append_hex_encoding (n : Nat) (dst : List Nat) :
    appendHexOf n dst = dst ++ appendHexOf n [] ∧
      (appendHexOf n []).length = 16 ∧
      (n < 2 ^ 64 →
        appendHexOf n [] =
          (List.range 16).map (fun i => hexByte ((n >>> (60 - 4 * i)) % 16))) ∧
      (∀ ch ∈ appendHexOf n [], (48 ≤ ch ∧ ch ≤ 57) ∨ (65 ≤ ch ∧ ch ≤ 70)) ∧
      appendHexOf 0 ([] : List Nat) =
        [48, 48, 48, 48, 48, 48, 48, 48, 48, 48, 48, 48, 48, 48, 48, 48] ∧
      appendHexOf (2 ^ 64 - 1) ([] : List Nat) =
        [70, 70, 70, 70, 70, 70, 70, 70, 70, 70, 70, 70, 70, 70, 70, 70] := by
  refine ⟨?_, ?_, appendHexOf_nibbles n, ?_, by decide, by decide⟩
  · rw [appendHexOf_unfold, appendHexOf_unfold n []]
    simp
  · rw [appendHexOf_unfold]
    simp
  · intro ch hch
    rw [appendHexOf_unfold] at hch
    simp only [List.nil_append, List.mem_cons, List.not_mem_nil, or_false] at hch
    have hb : ∀ s : Nat, (((n >>> s) % 256) >>> 4) < 16 := by
      intro s
      have h256 : (n >>> s) % 256 < 256 := Nat.mod_lt _ (by norm_num)
      simp only [Nat.shiftRight_eq_div_pow]
      omega
    have hl : ∀ s : Nat, (((n >>> s) % 256) &&& 0xf) < 16 := by
      intro s
      rw [and_fifteen]
      exact Nat.mod_lt _ (by norm_num)
    rcases hch with h | h | h | h | h | h | h | h | h | h | h | h | h | h | h | h <;>
      rw [h] <;> first
        | exact hexByte_range _ (hb _)
        | exact hexByte_range _ (hl _)

theorem append_hex_encoding_witness :
    appendHexOf 77 [] = [] ++ appendHexOf 77 [] ∧
      (appendHexOf 77 []).length = 16 ∧
      appendHexOf 77 [] =
        (List.range 16).map (fun i => hexByte ((77 >>> (60 - 4 * i)) % 16)) := by
  obtain ⟨h1, h2, h3, -⟩ := append_hex_encoding 77 []
  exact ⟨h1, h2, h3 (by norm_num)⟩

theorem fromHex_hexByte (x : Nat) (hx : x < 16) : fromHex (hexByte x) = x := by
  unfold hexByte fromHex
  split_ifs <;> omega

/-- C2: round-trip — for every 64-bit value `V`, decoding the server
identifier from the 16-character hex encoding of `V` returns exactly the
top 16 bits of `V`. -/
theorem getServerID_roundtrip (V : Nat) (hV : V < 2 ^ 64) :
    GetServerID (appendHexOf V []) = V >>> 48 := by
  rw [appendHexOf_unfold]
  unfold GetServerID
  simp only [List.nil_append, List.length_cons, List.length_nil, List.getD_cons_zero,
    List.getD_cons_succ]
  norm_num
  have hb0 : (((V >>> 56) % 256) >>> 4) < 16 := by
    have h256 : (V >>> 56) % 256 < 256 := Nat.mod_lt _ (by norm_num)
    simp only [Nat.shiftRight_eq_div_pow]
    omega
  have hb1 : (((V >>> 56) % 256) &&& 0xf) < 16 := by
    rw [and_fifteen]; exact Nat.mod_lt _ (by norm_num)
  have hb2 : (((V >>> 48) % 256) >>> 4) < 16 := by
    have h256 : (V >>> 48) % 256 < 256 := Nat.mod_lt _ (by norm_num)
    simp only [Nat.shiftRight_eq_div_pow]
    omega
  have hb3 : (((V >>> 48) % 256) &&& 0xf) < 16 := by
    rw [and_fifteen]; exact Nat.mod_lt _ (by norm_num)
  rw [fromHex_hexByte _ hb0, fromHex_hexByte _ hb1, fromHex_hexByte _ hb2,
    fromHex_hexByte _ hb3]
  rw [if_neg (by omega)]
  rw [shiftLeft_or_eq_add _ _ 4 (by norm_num at hb1 ⊢; omega),
    shiftLeft_or_eq_add _ _ 4 (by norm_num at hb3 ⊢; omega),
    shiftLeft_or_eq_add _ _ 8 (by norm_num at hb2 hb3 ⊢; omega)]
  simp only [Nat.shiftRight_eq_div_pow, and_fifteen]
  have hdiv : V / 2 ^ 56 = V / 2 ^ 48 / 2 ^ 8 := by
    rw [Nat.div_div_eq_div_mul]
    norm_num
  have htop : V / 2 ^ 48 < 2 ^ 16 := by
    have hpow : (2 : Nat) ^ 64 = 2 ^ 48 * 2 ^ 16 := by norm_num
    omega
  norm_num at hdiv htop ⊢
  omega

theorem getServerID_roundtrip_witness :
    GetServerID (appendHexOf 0x4D000000000001AB []) = 0x4D000000000001AB >>> 48 :=
  getServerID_roundtrip 0x4D000000000001AB (by norm_num)

theorem fromHex_eq_ff_iff (b : Nat) : fromHex b = 0xff ↔ ¬ isHexDigit b := by
  unfold fromHex isHexDigit
  split_ifs <;> omega

/-- C4: `GetServerID` returns the sentinel 0 on any input shorter than 16
bytes (in particular any input of length less than 4), on any input of
length at least 16 whose first 4 bytes contain a non-hex character, and in
particular on the 16-byte input consisting of the ASCII codes of
`zzzz000000000000`. -/
theorem getServerID_rejects_invalid :
    (∀ l : List Nat, l.length < 16 → GetServerID l = 0) ∧
      (∀ l : List Nat, l.length < 4 → GetServerID l = 0) ∧
      (∀ l : List Nat, 16 ≤ l.length →
        (∃ i, i < 4 ∧ ¬ isHexDigit (l.getD i 0)) → GetServerID l = 0) ∧
      GetServerID
        [122, 122, 122, 122, 48, 48, 48, 48, 48, 48, 48, 48, 48, 48, 48, 48] = 0 := by
  refine ⟨?_, ?_, ?_, by decide⟩
  · intro l hlen
    unfold GetServerID
    rw [if_pos hlen]
  · intro l hlen
    unfold GetServerID
    rw [if_pos (by omega)]
  · rintro l hlen ⟨i, hi4, hbad⟩
    have hff : fromHex (l.getD i 0) = 0xff := (fromHex_eq_ff_iff _).mpr hbad
    unfold GetServerID
    rw [if_neg (by omega)]
    interval_cases i <;>
      simp only [List.getD_eq_getElem?_getD] at hff <;> simp [hff]

theorem getServerID_rejects_invalid_witness :
    GetServerID [48, 48, 48] = 0 ∧
      GetServerID
        [122, 122, 122, 122, 48, 48, 48, 48, 48, 48, 48, 48, 48, 48, 48, 48] = 0 := by
  obtain ⟨h1, h2, h3, -⟩ := getServerID_rejects_invalid
  refine ⟨h2 [48, 48, 48] (by norm_num), ?_⟩
  exact h3 [122, 122, 122, 122, 48, 48, 48, 48, 48, 48, 48, 48, 48, 48, 48, 48]
    (by norm_num) ⟨0, by norm_num, by decide⟩

/-- Iterated invocation of `Get`: the values returned by `N` successive
calls (the order in which the atomic counter serializes `N` concurrent
callers), with the final state. -/
def getValues (ip4 : Option (Nat × Nat × Nat × Nat)) (st : State) : Nat → Option (List Nat × State)
  | 0 => some ([], st)
  | n + 1 =>
    match Get ip4 st with
    | none => none
    | some (v, st1) =>
      match getValues ip4 st1 n with
      | none => none
      | some (vs, st2) => some (v :: vs, st2)

theorem get_of_onceDone (ip4 : Option (Nat × Nat × Nat × Nat)) (st : State)
    (hd : st.onceDone = true) :
    Get ip4 st =
      some ((st.serverID <<< 48) ||| (((st.uniqueAdID + 1) % 2 ^ 64) &&& mask48),
        ⟨st.serverID, (st.uniqueAdID + 1) % 2 ^ 64, true⟩) := by
  unfold Get
  rw [hd]
  rfl

theorem getValues_spec (ip4 : Option (Nat × Nat × Nat × Nat)) (N : Nat) :
    ∀ st : State, st.onceDone = true →
      ∃ st', getValues ip4 st N =
        some ((List.range N).map
          (fun i => (st.serverID <<< 48) |||
            (((st.uniqueAdID + 1 + i) % 2 ^ 64) &&& mask48)), st') := by
  induction N with
  | zero => exact fun st _ => ⟨st, rfl⟩
  | succ n ih =>
    intro st hd
    obtain ⟨st', hst'⟩ := ih ⟨st.serverID, (st.uniqueAdID + 1) % 2 ^ 64, true⟩ rfl
    refine ⟨st', ?_⟩
    unfold getValues
    rw [get_of_onceDone ip4 st hd]
    simp only [hst', List.range_succ_eq_map, List.map_cons, List.map_map,
      Option.some.injEq, Prod.mk.injEq, and_true, List.cons.injEq]
    refine ⟨by norm_num, ?_⟩
    apply List.map_congr_left
    intro i _
    simp only [Function.comp_apply]
    apply congrArg
    apply congrArg (· &&& mask48)
    omega

/-- C8: any `N` successive invocations of `Get` (`N` up to `2 ^ 48`, the
order being the serialization order of the atomic counter) return pairwise
distinct 64-bit values, provided the counter has not consumed more than
`2 ^ 48 - N` sequence slots since its last wraparound. -/
theorem get_values_pairwise_distinct (ip4 : Option (Nat × Nat × Nat × Nat))
    (st st' : State) (N : Nat) (vs : List Nat)
    (hd : st.onceDone = true) (hN : N ≤ 2 ^ 48)
    (_hslots : st.uniqueAdID % 2 ^ 48 ≤ 2 ^ 48 - N)
    (h : getValues ip4 st N = some (vs, st')) :
    vs.Pairwise (· ≠ ·) := by
  obtain ⟨st'', hspec⟩ := getValues_spec ip4 N st hd
  rw [h] at hspec
  simp only [Option.some.injEq, Prod.mk.injEq] at hspec
  obtain ⟨hvs, -⟩ := hspec
  rw [hvs]
  rw [List.pairwise_iff_getElem]
  intro i j hi hj hij
  simp only [List.length_map, List.length_range] at hi hj
  simp only [List.getElem_map, List.getElem_range]
  intro heq
  have hmi : ((st.uniqueAdID + 1 + i) % 2 ^ 64) &&& mask48 < 2 ^ 48 := by
    rw [and_mask48_eq_mod]
    exact Nat.mod_lt _ (by norm_num)
  have hmj : ((st.uniqueAdID + 1 + j) % 2 ^ 64) &&& mask48 < 2 ^ 48 := by
    rw [and_mask48_eq_mod]
    exact Nat.mod_lt _ (by norm_num)
  rw [shiftLeft_or_eq_add _ _ _ hmi, shiftLeft_or_eq_add _ _ _ hmj,
    and_mask48_eq_mod, and_mask48_eq_mod] at heq
  omega

theorem get_values_pairwise_distinct_witness :
    ([(77 : Nat) <<< 48 ||| (6 &&& mask48),
      77 <<< 48 ||| (7 &&& mask48)] : List Nat).Pairwise (· ≠ ·) := by
  refine get_values_pairwise_distinct none ⟨77, 5, true⟩ ⟨77, 7, true⟩ 2 _
    rfl (by norm_num) (by norm_num) ?_
  rfl

/-- C10: `GetServerID` never examines input positions 4 through 15: on any
input of length at least 16 whose first 4 bytes are valid hex digits it
returns `(byte0 << 8) | byte1` reconstructed from those 4 digits alone
(even when the remaining 12 characters are not hex digits), and its result
on inputs of length at least 16 depends only on the first 4 bytes. -/
theorem getServerID_ignores_tail :
    (∀ l : List Nat, 16 ≤ l.length → (∀ i, i < 4 → isHexDigit (l.getD i 0)) →
      GetServerID l =
        (((fromHex (l.getD 0 0) <<< 4) ||| fromHex (l.getD 1 0)) <<< 8) |||
          ((fromHex (l.getD 2 0) <<< 4) ||| fromHex (l.getD 3 0))) ∧
      (∀ l l' : List Nat, 16 ≤ l.length → 16 ≤ l'.length →
        l.take 4 = l'.take 4 → GetServerID l = GetServerID l') := by
  constructor
  · intro l hlen hhex
    have hne : ∀ i, i < 4 → fromHex (l.getD i 0) ≠ 0xff := fun i hi heq =>
      (fromHex_eq_ff_iff _).mp heq (hhex i hi)
    unfold GetServerID
    rw [if_neg (by omega),
      if_neg (by
        push_neg
        exact ⟨hne 0 (by norm_num), hne 1 (by norm_num), hne 2 (by norm_num),
          hne 3 (by norm_num)⟩)]
  · intro l l' hl hl' htake
    have hgd : ∀ i, i < 4 → l.getD i 0 = l'.getD i 0 := by
      intro i hi
      have h1 : (l.take 4)[i]? = l[i]? := List.getElem?_take_of_lt hi
      have h2 : (l'.take 4)[i]? = l'[i]? := List.getElem?_take_of_lt hi
      rw [List.getD_eq_getElem?_getD, List.getD_eq_getElem?_getD, ← h1, ← h2, htake]
    unfold GetServerID
    rw [if_neg (show ¬ l.length < 16 by omega),
      if_neg (show ¬ l'.length < 16 by omega), hgd 0 (by norm_num),
      hgd 1 (by norm_num), hgd 2 (by norm_num), hgd 3 (by norm_num)]

theorem getServerID_ignores_tail_witness :
    GetServerID
        [52, 68, 48, 49, 122, 122, 122, 122, 122, 122, 122, 122, 122, 122, 122, 122] =
      (((fromHex 52 <<< 4) ||| fromHex 68) <<< 8) |||
        ((fromHex 48 <<< 4) ||| fromHex 49) := by
  have h := getServerID_ignores_tail.1
    [52, 68, 48, 49, 122, 122, 122, 122, 122, 122, 122, 122, 122, 122, 122, 122]
    (by norm_num) (by decide)
  exact h

end Uniqid
